import Mathlib

/-!
# Verification of the UAEscraper harvesting / retrieval pipeline

A shallow embedding of the harvesting-and-retrieval core of the
UAEscraper repository, together with theorems settling the frozen
claims about it.

The embedding follows the Python source:

* `modules/analysis_engine.py` — the retrieval aggregator
  (`get_docs_from_all_stores` inside `AnalysisEngine._create_rag_chain`);
* `main.py` — the two parallel runners (`run_scraping_in_parallel`,
  `run_async_scraping_in_parallel`), the driver pool
  (`create_driver_pool`, `scrape_linkedin_for_company`), and the
  two-stage deep-web pipeline (`step_7_scrape_deep_web`);
* `modules/linkedin_scraper.py` — the post-document construction of
  `LinkedInScraper.scrape_page`;
* `modules/news_scraper.py` — the timing discipline of
  `NewsScraper._search_brave`.

Python strings are modelled as Lean `String`; Python `None`-able values
as `Option`; a raised exception as `Except.error`; a Python `set` as a
membership list; wall-clock time as `ℚ`.
-/

namespace UAEscraper

/-- A harvested fragment (a LangChain `Document`): `page_content` plus the
metadata written by every harvester in this repository
(`{"company": ..., "source": ..., "type": ...}`). -/
structure Doc where
  pageContent : String
  company : String
  source : String
  typ : String
deriving DecidableEq, Repr

/-- Python string slicing `s[:n]`: the first `n` characters of `s`. -/
def pySlice (s : String) (n : Nat) : String :=
  ⟨s.data.take n⟩

/-! ## Retrieval aggregator (`modules/analysis_engine.py`, lines 30-64)

`get_docs_from_all_stores` queries every loaded vector store with
`store.similarity_search(company_name, k=10, filter={"company": company_name})`,
concatenates the hits, deduplicates them by `doc.metadata['source']`
through a Python dict comprehension, truncates each page content to
`MAX_CHARS_PER_DOC = 4000` characters, prefixes each with a source
annotation and joins the blocks with `"\n---\n"`. -/

/-- Modelled from the spec: the `IndexStore.query` capability
(`store.similarity_search(text, k, filter)` of the external FAISS
library, which is not part of this repository). Per the spec's
IndexStore contract it returns up to `k` fragments restricted to those
matching the filter (entity-name equality on the `company` metadata
key); similarity ranking is opaque here, so the store's own order
stands in for the ranking. -/
def similaritySearch (store : List Doc) (k : Nat) (filterCompany : String) : List Doc :=
  (store.filter (fun d => d.company = filterCompany)).take k

/-- The per-document context cap of `get_docs_from_all_stores`. -/
def MAX_CHARS_PER_DOC : Nat := 4000

/-- The fan-in loop of `get_docs_from_all_stores`: for every loaded store,
`similarity_search(company_name, k=10, filter={"company": company_name})`,
extending `all_docs` with the hits. -/
def getAllDocs (companyName : String) (stores : List (List Doc)) : List Doc :=
  stores.foldl (fun allDocs store => allDocs ++ similaritySearch store 10 companyName) []

/-- One step of the Python dict comprehension
`{doc.metadata['source']: doc for doc in all_docs}`: assigning to a key
that is already present overwrites its value in place; a new key is
appended.  This is exactly CPython dict semantics (insertion order of
first occurrence, last assignment wins). -/
def dictInsert (m : List (String × Doc)) (d : Doc) : List (String × Doc) :=
  if m.any (fun p => p.1 = d.source) then
    m.map (fun p => if p.1 = d.source then (p.1, d) else p)
  else
    m ++ [(d.source, d)]

/-- `unique_docs = list({doc.metadata['source']: doc for doc in all_docs}.values())`. -/
def uniqueDocs (docs : List Doc) : List Doc :=
  (docs.foldl dictInsert []).map Prod.snd

/-- The per-fragment block
`f"Source: {source}\nContent:\n{content}"` with
`content = doc.page_content[:MAX_CHARS_PER_DOC]`. -/
def formatDoc (d : Doc) : String :=
  "Source: " ++ d.source ++ "\nContent:\n" ++ pySlice d.pageContent MAX_CHARS_PER_DOC

/-- `get_docs_from_all_stores` (`modules/analysis_engine.py:30-64`):
the compiled per-entity context handed to the RAG prompt. -/
def getDocsFromAllStores (companyName : String) (stores : List (List Doc)) : String :=
  String.intercalate "\n---\n" ((uniqueDocs (getAllDocs companyName stores)).map formatDoc)

/-- Invariant of the dict built by the deduplicating comprehension:
keys are pairwise distinct, every key is its value's source URL, and
every value is one of the input documents. -/
def DictInv (docs : List Doc) (m : List (String × Doc)) : Prop :=
  (m.map Prod.fst).Nodup ∧ ∀ p ∈ m, p.1 = p.2.source ∧ p.2 ∈ docs

/-! ## The two parallel runners (`main.py`, lines 110-137)

`run_scraping_in_parallel` submits every task to a `ThreadPoolExecutor`
and iterates `as_completed(futures)`; `future.result()` re-raises an
exception raised inside the worker, which is caught, printed, and the
loop continues with the remaining futures.  A worker's raised exception
is modelled as `Except.error`; the order in which futures complete is
an arbitrary list (`completionOrder`).

`run_async_scraping_in_parallel` awaits
`asyncio.gather(*[worker_function(task) for task in tasks])` *without*
`return_exceptions=True`: the first exception raised by any coroutine
propagates out of `gather`, so the collection loop below it never runs.

The worker functions of this repository return lists of documents, so a
result is modelled as `List Doc`; the truthiness test `if result:` is
the test for a non-empty list. -/

/-- The collection loop shared by both runners
(`if result: all_documents.extend(result)`). -/
def collectResults (results : List (List Doc)) : List Doc :=
  results.foldl (fun allDocuments result =>
    if result ≠ [] then allDocuments ++ result else allDocuments) []

/-- `run_scraping_in_parallel(worker_function, tasks, max_workers)`
(`main.py:110-125`), observed over a given completion order of the
futures: a future whose worker raised is caught (`except Exception`)
and skipped; the successful results are collected. -/
def runScrapingInParallel {τ : Type} (workerFunction : τ → Except Unit (List Doc))
    (completionOrder : List τ) : List Doc :=
  completionOrder.foldl (fun allDocuments task =>
    match workerFunction task with
    | .ok result => if result ≠ [] then allDocuments ++ result else allDocuments
    | .error _ => allDocuments) []

/-- `asyncio.gather` without `return_exceptions`: if every coroutine
returns, so does the gather with the list of results; the first raised
exception propagates. -/
def asyncioGather {τ : Type} (workerFunction : τ → Except Unit (List Doc)) :
    List τ → Except Unit (List (List Doc))
  | [] => .ok []
  | t :: ts =>
    match workerFunction t with
    | .error e => .error e
    | .ok r =>
      match asyncioGather workerFunction ts with
      | .error e => .error e
      | .ok rs => .ok (r :: rs)

/-- `run_async_scraping_in_parallel(worker_function, tasks)`
(`main.py:127-137`): gather the coroutines, then run the collection
loop over the results.  An exception escaping `gather` escapes the
whole call. -/
def runAsyncScrapingInParallel {τ : Type} (workerFunction : τ → Except Unit (List Doc))
    (tasks : List τ) : Except Unit (List Doc) :=
  match asyncioGather workerFunction tasks with
  | .error e => .error e
  | .ok results => .ok (collectResults results)

/-! ## Driver pool (`main.py`, lines 41-53 and 65-74)

`create_driver_pool(size)` builds `size` `LinkedInScraper()` instances
and puts each successfully created driver into a `queue.Queue`; a
failed creation is only printed, so the queue can end up with fewer
than `size` drivers.

`scrape_linkedin_for_company` is the worker body run on the thread
pool: `driver = driver_pool.get()` (blocking borrow), then
`try: ... scrape_page(...) ... finally: driver_pool.put(driver)` — the
driver is returned on every exit path, including when `scrape_page`
raises.

The concurrent batch is embedded as a labelled transition system over
interleavings: each worker must `get` before it works, its work may
finish normally or by raising, and from either outcome the only next
step is the `finally` `put`.  A `get` is enabled only when the queue is
non-empty (a blocked `queue.Queue.get` simply cannot fire). -/

/-- `create_driver_pool(size)`: each loop iteration yields
`some driver` or `none` (creation failed and was only logged); only the
successes are put into the queue.  Drivers are opaque (`Unit`). -/
def createDriverPool (creationOutcomes : List (Option Unit)) : List Unit :=
  creationOutcomes.filterMap id

deriving instance DecidableEq for Except

/-- Control point of one pooled worker running
`scrape_linkedin_for_company`. -/
inductive WorkerPhase where
  /-- before `driver_pool.get()` -/
  | idle : WorkerPhase
  /-- holding a borrowed driver, `scrape_page` still running -/
  | holding : WorkerPhase
  /-- `scrape_page` finished: `.ok` documents or a raised exception -/
  | finished : Except Unit (List Doc) → WorkerPhase
  /-- after the `finally: driver_pool.put(driver)` -/
  | done : WorkerPhase
deriving DecidableEq

/-- State of the pooled batch: drivers sitting in the queue plus the
control point of each worker. -/
structure PoolState where
  avail : Nat
  workers : List WorkerPhase
deriving DecidableEq

/-- One scheduler event of the pooled batch. -/
inductive PoolEvent where
  /-- worker `i` returns from `driver_pool.get()` -/
  | get (i : Nat) : PoolEvent
  /-- worker `i`'s `scrape_page` completes with result `r`
  (`.error` = it raised) -/
  | work (i : Nat) (r : Except Unit (List Doc)) : PoolEvent
  /-- worker `i` runs the `finally: driver_pool.put(driver)` -/
  | put (i : Nat) : PoolEvent

/-- Whether a worker currently holds a borrowed driver. -/
def WorkerPhase.borrowed : WorkerPhase → Bool
  | .holding => true
  | .finished _ => true
  | _ => false

/-- Fire one event if the code makes it possible in the given state:
`get` only when the worker is before its borrow *and* the queue is
non-empty; `work` only while holding; `put` only after the work
completed (with either outcome — the `put` sits in a `finally`). -/
def applyPoolEvent (s : PoolState) (e : PoolEvent) : Option PoolState :=
  match e with
  | .get i =>
    match s.workers.get? i with
    | some .idle => if s.avail > 0 then some ⟨s.avail - 1, s.workers.set i .holding⟩ else none
    | _ => none
  | .work i r =>
    match s.workers.get? i with
    | some .holding => some ⟨s.avail, s.workers.set i (.finished r)⟩
    | _ => none
  | .put i =>
    match s.workers.get? i with
    | some (.finished _) => some ⟨s.avail + 1, s.workers.set i .done⟩
    | _ => none

/-- Run a whole interleaving of scheduler events. -/
def runPoolEvents (s : PoolState) : List PoolEvent → Option PoolState
  | [] => some s
  | e :: es =>
    match applyPoolEvent s e with
    | some s' => runPoolEvents s' es
    | none => none

/-- The number of concurrently outstanding borrowed drivers. -/
def outstanding (s : PoolState) : Nat :=
  s.workers.countP (fun w => w.borrowed)

/-- Initial state of a batch of `m` workers over a freshly created pool. -/
def initialPoolState (creationOutcomes : List (Option Unit)) (m : Nat) : PoolState :=
  ⟨(createDriverPool creationOutcomes).length, List.replicate m .idle⟩

/-! ## Two-stage deep-web pipeline, Stage 1 (`main.py`, lines 200-222)

`step_7_scrape_deep_web` iterates companies sequentially; for each
generated query it sleeps, calls the search service, and for each
result URL appends a work item *only if the URL was never seen in this
run* (`scraped_urls` is a single set shared across all companies). -/

/-- One entry of a Brave search response, as consumed by the Stage-1
loop: `result.get("url")` and `result.get("doc_type")`. -/
structure SearchResult where
  url : Option String
  docType : Option String
deriving DecidableEq, Repr

/-- One Stage-2 work item as appended by the Stage-1 loop (the
`driver_pool` field of the Python dict is the shared pool handle and
carries no information). -/
structure DeepWorkItem where
  url : String
  docType : Option String
  companyName : String
deriving DecidableEq, Repr

/-- Mutable state of the Stage-1 loop: `all_urls_to_scrape` and the
globally shared `scraped_urls` set (modelled as a list with `∈`). -/
structure Stage1State where
  allUrlsToScrape : List DeepWorkItem
  scrapedUrls : List String
deriving DecidableEq, Repr

/-- The body of `for result in search_results:` — Python's `if url and
url not in scraped_urls:` (truthiness: present and non-empty). -/
def stage1Step (companyName : String) (s : Stage1State) (r : SearchResult) : Stage1State :=
  match r.url with
  | some url =>
    if url ≠ "" ∧ url ∉ s.scrapedUrls then
      ⟨s.allUrlsToScrape ++ [⟨url, r.docType, companyName⟩], url :: s.scrapedUrls⟩
    else s
  | none => s

/-- Stage 1 of `step_7_scrape_deep_web`: the triple-nested sequential
loop over companies, their generated queries, and each query's search
results.  `searchBrave` takes the company name because the loop writes
`query_info['company_name'] = company_name` before the call. -/
def step7Stage1 (companies : List String) (generateQueries : String → List String)
    (searchBrave : String → String → List SearchResult) : Stage1State :=
  companies.foldl (fun s companyName =>
    (generateQueries companyName).foldl (fun s query =>
      (searchBrave companyName query).foldl (stage1Step companyName) s) s)
    ⟨[], []⟩

/-- The run's (company, search result) pairs in the order Stage 1
visits them. -/
def stage1Pairs (companies : List String) (generateQueries : String → List String)
    (searchBrave : String → String → List SearchResult) : List (String × SearchResult) :=
  companies.flatMap (fun companyName =>
    (generateQueries companyName).flatMap (fun query =>
      (searchBrave companyName query).map (fun r => (companyName, r))))

/-- The non-empty URLs surfaced by a list of (company, result) pairs,
with multiplicity. -/
def discoveredUrls (pairs : List (String × SearchResult)) : List String :=
  pairs.filterMap (fun p =>
    match p.2.url with
    | some u => if u ≠ "" then some u else none
    | none => none)

/-- Invariant of the Stage-1 fold, relative to the pairs processed so
far: the scheduled URLs are exactly the members of the shared set, the
set is duplicate-free and holds exactly the non-empty URLs discovered
so far, and each work item records the company of the *first* pair
that surfaced its URL. -/
def Stage1Inv (processed : List (String × SearchResult)) (s : Stage1State) : Prop :=
  s.allUrlsToScrape.map DeepWorkItem.url = s.scrapedUrls.reverse
  ∧ s.scrapedUrls.Nodup
  ∧ (∀ u, u ∈ s.scrapedUrls ↔ u ∈ discoveredUrls processed)
  ∧ ∀ it ∈ s.allUrlsToScrape, it.url ≠ ""
      ∧ processed.find? (fun p => p.2.url == some it.url)
          = some (it.companyName, ⟨some it.url, it.docType⟩)

/-! ## Store boundary and the LinkedIn posts harvest
(`main.py:147-149`, `modules/linkedin_scraper.py:132-136`)

Step 2 guards only against an entirely empty batch
(`if all_documents:`) before calling `vector_store.add_documents`,
which appends every document it is given — neither `main.py` nor any
harvester inspects a single fragment's content here, and the store is
the external FAISS wrapper, which performs no content filtering of its
own. -/

/-- The post-document construction of `LinkedInScraper.scrape_page`
(lines 132-136): one `Document` per post element, `page_content =
post.text`, with no check on the text. -/
def scrapePagePostDocs (companyName postsUrl : String) (postTexts : List String) : List Doc :=
  postTexts.map (fun t => ⟨t, companyName, postsUrl, "company_post"⟩)

/-- `vector_store.add_documents(all_documents)`: the store appends
every document passed to it (the FAISS wrapper embeds and stores each
`page_content` as given). -/
def addDocuments (store : List Doc) (docs : List Doc) : List Doc :=
  store ++ docs

/-- The store update of `step_2_scrape_linkedin` (`main.py:147-149`):
`if all_documents: vector_store.add_documents(all_documents)`. -/
def step2AddDocuments (store : List Doc) (allDocuments : List Doc) : List Doc :=
  if allDocuments ≠ [] then addDocuments store allDocuments else store

/-- A whitespace-only LinkedIn post, as `scrape_page` would harvest it
for company `"Acme"`. -/
def whitespacePostBatch : List Doc :=
  scrapePagePostDocs "Acme" "https://www.linkedin.com/company/acme/posts/" [" "]

/-! ## Brave-call timing (`main.py:210`, `modules/news_scraper.py:44`)

Wall-clock time is `ℚ` (seconds).  `time.sleep(x)` suspends the
calling thread for at least `x` seconds; nothing else constrains when
another thread runs. -/

/-- `config.BRAVE_API_RATE_LIMIT` (seconds), from `config.py`. -/
def BRAVE_API_RATE_LIMIT : ℚ := 1

/-- Timing data of one iteration of the sequential Stage-1 loop of
`step_7_scrape_deep_web`: loop work before the sleep (query handling),
how much longer than the mandated interval the sleep actually lasted,
and the duration of the search call itself. -/
structure CallTiming where
  preWork : ℚ
  sleepOver : ℚ
  callDur : ℚ
deriving Repr

/-- All components of a timing are durations, hence non-negative. -/
def CallTiming.Valid (c : CallTiming) : Prop :=
  0 ≤ c.preWork ∧ 0 ≤ c.sleepOver ∧ 0 ≤ c.callDur

/-- Start times of the successive Brave calls of the sequential Stage-1
loop: each iteration does its loop work, sleeps
`BRAVE_API_RATE_LIMIT` (plus scheduler overshoot), then starts the
call; the next iteration begins when the call returns. -/
def stage1CallStarts (t0 : ℚ) : List CallTiming → List ℚ
  | [] => []
  | c :: cs =>
    let s := t0 + c.preWork + BRAVE_API_RATE_LIMIT + c.sleepOver
    s :: stage1CallStarts (s + c.callDur) cs

/-- A concurrent execution of the news step (`step_4_scrape_news` runs
`scrape_news_for_company` on `SELENIUM_MAX_WORKERS = 2` pool threads):
each worker thread, independently, reaches `_search_brave`, executes
`time.sleep(config.BRAVE_API_RATE_LIMIT)` on its own clock, and then
issues its API request.  The two threads share no ordering constraint
before their calls. -/
structure NewsParallelExec where
  /-- when worker 0 enters its `time.sleep` -/
  sleepStart0 : ℚ
  /-- worker 0's sleep overshoot -/
  over0 : ℚ
  /-- when worker 1 enters its `time.sleep` -/
  sleepStart1 : ℚ
  /-- worker 1's sleep overshoot -/
  over1 : ℚ
deriving Repr

/-- The execution is realizable: all times are non-negative. -/
def NewsParallelExec.Valid (e : NewsParallelExec) : Prop :=
  0 ≤ e.sleepStart0 ∧ 0 ≤ e.over0 ∧ 0 ≤ e.sleepStart1 ∧ 0 ≤ e.over1

/-- Start time of worker 0's Brave request: its sleep of at least the
configured interval ends first. -/
def NewsParallelExec.callStart0 (e : NewsParallelExec) : ℚ :=
  e.sleepStart0 + BRAVE_API_RATE_LIMIT + e.over0

/-- Start time of worker 1's Brave request. -/
def NewsParallelExec.callStart1 (e : NewsParallelExec) : ℚ :=
  e.sleepStart1 + BRAVE_API_RATE_LIMIT + e.over1

/-- A realizable schedule of the news step in which the two workers
enter their sleeps one hundredth of a second apart. -/
def newsOverlapExec : NewsParallelExec :=
  ⟨0, 0, 1/100, 0⟩

/-! ## Example documents used by concrete witnesses and counterexamples -/

/-- A fragment tagged with entity `"Acme"`. -/
def docAcme : Doc := ⟨"acme profile text", "Acme", "https://a.example/1", "company_about"⟩

/-- A fragment tagged with entity `"Nova"`. -/
def docNova : Doc := ⟨"nova profile text", "Nova", "https://n.example/1", "company_about"⟩

/-- A worker function that raises on task `0` and succeeds on any other
task. -/
def failingWorker : Nat → Except Unit (List Doc) :=
  fun n => if n = 0 then .error () else .ok [docAcme]

/-- Two entities whose deep-web discoveries overlap on URL `"u2"`. -/
def demoCompanies : List String := ["Acme Pay", "Nova Bank"]

/-- One discovery query per entity. -/
def demoGen : String → List String := fun _ => ["q"]

/-- Stage-1 search results: `"Acme Pay"` surfaces `{u1, u2}`,
`"Nova Bank"` surfaces `{u2, u3}`. -/
def demoSearch : String → String → List SearchResult := fun companyName _ =>
  if companyName = "Acme Pay" then
    [⟨some "u1", some "partnership_info"⟩, ⟨some "u2", some "partnership_info"⟩]
  else
    [⟨some "u2", some "forum_discussion"⟩, ⟨some "u3", some "forum_discussion"⟩]

/-! # Theorems -/

/-! ## Aggregator lemmas -/

theorem pySlice_length_le (s : String) (n : Nat) : (pySlice s n).length ≤ n := by
  simp only [pySlice, String.length]
  exact (List.length_take n s.data).le.trans (Nat.min_le_left _ _)

/-- Every hit of the store query carries the filter's company tag. -/
theorem mem_similaritySearch_company {store : List Doc} {k : Nat} {c : String}
    {d : Doc} (hd : d ∈ similaritySearch store k c) : d.company = c := by
  have := List.mem_filter.mp (List.mem_of_mem_take hd)
  exact of_decide_eq_true this.2

theorem foldl_getAllDocs_mem (companyName : String) :
    ∀ (stores : List (List Doc)) (acc : List Doc) (x : Doc),
      x ∈ stores.foldl (fun allDocs store => allDocs ++ similaritySearch store 10 companyName) acc →
      x ∈ acc ∨ x.company = companyName := by
  intro stores
  induction stores with
  | nil => intro acc x hx; exact Or.inl (by simpa using hx)
  | cons s ss ih =>
    intro acc x hx
    rcases ih (acc ++ similaritySearch s 10 companyName) x hx with h | h
    · rcases List.mem_append.mp h with h | h
      · exact Or.inl h
      · exact Or.inr (mem_similaritySearch_company h)
    · exact Or.inr h

/-- Every document the fan-in loop collects carries the requested
company tag (by the store query contract). -/
theorem mem_getAllDocs_company {companyName : String} {stores : List (List Doc)}
    {d : Doc} (hd : d ∈ getAllDocs companyName stores) : d.company = companyName := by
  rcases foldl_getAllDocs_mem companyName stores [] d hd with h | h
  · simp at h
  · exact h

/-- The fan-in loop requests `k = 10` per store, so it collects at most
`10 × (number of stores)` documents. -/
theorem getAllDocs_length_le (companyName : String) (stores : List (List Doc)) :
    (getAllDocs companyName stores).length ≤ 10 * stores.length := by
  suffices h : ∀ (acc : List Doc),
      (stores.foldl (fun allDocs store => allDocs ++ similaritySearch store 10 companyName) acc).length
        ≤ acc.length + 10 * stores.length by
    simpa using h []
  induction stores with
  | nil => intro acc; simp
  | cons s ss ih =>
    intro acc
    calc (List.foldl (fun allDocs store => allDocs ++ similaritySearch store 10 companyName)
            (acc ++ similaritySearch s 10 companyName) ss).length
        ≤ (acc ++ similaritySearch s 10 companyName).length + 10 * ss.length := ih _
      _ ≤ (acc.length + 10) + 10 * ss.length := by
          have : (similaritySearch s 10 companyName).length ≤ 10 :=
            (List.length_take _ _).le.trans (Nat.min_le_left _ _)
          simp only [List.length_append]
          omega
      _ = acc.length + 10 * (ss.length + 1) := by ring
      _ = acc.length + 10 * (s :: ss).length := by simp

theorem dictInsert_inv {docs : List Doc} {m : List (String × Doc)} {d : Doc}
    (hm : DictInv docs m) (hd : d ∈ docs) : DictInv docs (dictInsert m d) := by
  obtain ⟨hnd, hmem⟩ := hm
  unfold dictInsert
  by_cases h : m.any (fun p => p.1 = d.source) = true
  · rw [if_pos h]
    constructor
    · have : (m.map (fun p => if p.1 = d.source then (p.1, d) else p)).map Prod.fst
          = m.map Prod.fst := by
        rw [List.map_map]
        refine List.map_congr_left ?_
        intro p _
        by_cases hp : p.1 = d.source <;> simp [hp]
      rw [this]; exact hnd
    · intro p hp
      rcases List.mem_map.mp hp with ⟨q, hq, hqe⟩
      by_cases hqs : q.1 = d.source
      · rw [if_pos hqs] at hqe
        subst hqe
        exact ⟨hqs, hd⟩
      · rw [if_neg hqs] at hqe
        subst hqe
        exact hmem q hq
  · rw [if_neg h]
    constructor
    · rw [List.map_append]
      refine List.Nodup.append hnd (by simp) ?_
      intro a ha hb
      simp only [List.map_cons, List.map_nil, List.mem_singleton] at hb
      subst hb
      rcases List.mem_map.mp ha with ⟨q, hq, hqe⟩
      exact h (List.any_eq_true.mpr ⟨q, hq, by simp [hqe]⟩)
    · intro p hp
      rcases List.mem_append.mp hp with hp | hp
      · exact hmem p hp
      · simp only [List.mem_singleton] at hp
        subst hp
        exact ⟨rfl, hd⟩

theorem foldl_dictInsert_inv {docs : List Doc} :
    ∀ (l : List Doc) (m : List (String × Doc)), DictInv docs m → (∀ x ∈ l, x ∈ docs) →
      DictInv docs (l.foldl dictInsert m) := by
  intro l
  induction l with
  | nil => intro m hm _; simpa using hm
  | cons d ds ih =>
    intro m hm hl
    simp only [List.foldl_cons]
    exact ih (dictInsert m d) (dictInsert_inv hm (hl d (by simp)))
      (fun x hx => hl x (by simp [hx]))

theorem dictInv_uniqueDocs (docs : List Doc) :
    DictInv docs (docs.foldl dictInsert []) :=
  foldl_dictInsert_inv docs [] ⟨by simp, by simp⟩ (fun _ hx => hx)

/-- The origins of the deduplicated document list are pairwise distinct. -/
theorem uniqueDocs_sources_nodup (docs : List Doc) :
    ((uniqueDocs docs).map Doc.source).Nodup := by
  obtain ⟨hnd, hmem⟩ := dictInv_uniqueDocs docs
  unfold uniqueDocs
  rw [List.map_map]
  have : (docs.foldl dictInsert []).map (Doc.source ∘ Prod.snd)
      = (docs.foldl dictInsert []).map Prod.fst := by
    refine List.map_congr_left ?_
    intro p hp
    exact ((hmem p hp).1).symm
  rw [this]; exact hnd

/-- Every deduplicated document is one of the input documents. -/
theorem uniqueDocs_subset {docs : List Doc} {d : Doc} (hd : d ∈ uniqueDocs docs) :
    d ∈ docs := by
  obtain ⟨_, hmem⟩ := dictInv_uniqueDocs docs
  rcases List.mem_map.mp hd with ⟨p, hp, hpe⟩
  exact hpe ▸ (hmem p hp).2

/-- When every store query comes back empty, the fan-in loop collects
nothing at all. -/
theorem getAllDocs_eq_nil {companyName : String} {stores : List (List Doc)}
    (h : ∀ s ∈ stores, similaritySearch s 10 companyName = []) :
    getAllDocs companyName stores = [] := by
  unfold getAllDocs
  induction stores with
  | nil => rfl
  | cons s ss ih =>
    simp only [List.foldl_cons, h s (by simp), List.append_nil]
    exact ih (fun t ht => h t (by simp [ht]))

/-! ## Claims about the retrieval aggregator -/

/-- Claim C3: retrieval on behalf of entity A (similarity search filtered
by `{company: A}`) never returns a fragment tagged with a different
entity B, and every fragment in the aggregated (deduplicated) context
for A carries A's name in its metadata. -/
theorem claim_C3_entity_scoped_retrieval (A B : String) (stores : List (List Doc))
    (hAB : A ≠ B) :
    (∀ d ∈ getAllDocs A stores, d.company = A ∧ d.company ≠ B)
    ∧ ∀ d ∈ uniqueDocs (getAllDocs A stores), d.company = A := by
  constructor
  · intro d hd
    have h := mem_getAllDocs_company hd
    exact ⟨h, h ▸ hAB⟩
  · intro d hd
    exact mem_getAllDocs_company (uniqueDocs_subset hd)

/-- Witness for C3: with a store holding one `"Acme"` and one `"Nova"`
fragment, retrieval for `"Acme"` never returns the `"Nova"` fragment. -/
theorem claim_C3_entity_scoped_retrieval_witness :
    "Acme" ≠ "Nova" ∧ docNova ∉ getAllDocs "Acme" [[docAcme, docNova]] := by
  have h := claim_C3_entity_scoped_retrieval "Acme" "Nova" [[docAcme, docNova]] (by decide)
  exact ⟨by decide, fun hmem => absurd (h.1 docNova hmem).1 (by decide)⟩

/-- Claim C6, counterexample: when the union of query results over all
stores is empty — no stores loaded, or no store holds a matching
fragment — the aggregator returns the *empty string*, not an explicit
"no context" result distinguishable from it. -/
theorem claim_C6_counterexample :
    getDocsFromAllStores "Acme" [] = ""
    ∧ getDocsFromAllStores "Acme" [[docNova]] = "" := by
  exact ⟨rfl, by decide⟩

/-- Claim C6, amended: for every entity whose union of query results over
all index stores is empty, `get_docs_from_all_stores` returns the empty
string; no "no context" marker distinguishable from the empty string
exists, so the synthesis caller cannot tell "nothing found" from
"found but empty". -/
theorem claim_C6_amended_empty_union_empty_string (companyName : String)
    (stores : List (List Doc))
    (h : ∀ s ∈ stores, similaritySearch s 10 companyName = []) :
    getDocsFromAllStores companyName stores = "" := by
  unfold getDocsFromAllStores
  rw [getAllDocs_eq_nil h]
  rfl

/-- Witness for the amended C6 at a store whose only fragment belongs
to another entity. -/
theorem claim_C6_amended_witness :
    (∀ s ∈ [[docNova]], similaritySearch s 10 "Acme" = [])
    ∧ getDocsFromAllStores "Acme" [[docNova]] = "" :=
  ⟨by decide, claim_C6_amended_empty_union_empty_string "Acme" [[docNova]] (by decide)⟩

/-- Claim C8: in the compiled per-entity context, deduplication is by
origin — the source annotations of the deduplicated fragments the
context is built from are pairwise distinct, so a source URL never
contributes two fragments, no matter how many stores or sub-queries
returned it. -/
theorem claim_C8_dedup_by_origin (companyName : String) (stores : List (List Doc)) :
    ((uniqueDocs (getAllDocs companyName stores)).map Doc.source).Nodup :=
  uniqueDocs_sources_nodup _

/-- Claim C9: the compiled context is the join of per-fragment blocks;
each block is an explicit source annotation followed by the fragment's
content truncated to `MAX_CHARS_PER_DOC = 4000` characters, so each
block's length is bounded by the annotation's length plus 4000. -/
theorem claim_C9_truncation_and_annotation (companyName : String) (stores : List (List Doc)) :
    getDocsFromAllStores companyName stores
      = String.intercalate "\n---\n" ((uniqueDocs (getAllDocs companyName stores)).map formatDoc)
    ∧ ∀ d : Doc,
        formatDoc d
          = ("Source: " ++ d.source ++ "\nContent:\n") ++ pySlice d.pageContent MAX_CHARS_PER_DOC
        ∧ (pySlice d.pageContent MAX_CHARS_PER_DOC).length ≤ MAX_CHARS_PER_DOC
        ∧ (formatDoc d).length
            ≤ ("Source: " ++ d.source ++ "\nContent:\n").length + MAX_CHARS_PER_DOC := by
  refine ⟨rfl, fun d => ⟨rfl, pySlice_length_le _ _, ?_⟩⟩
  show (("Source: " ++ d.source ++ "\nContent:\n") ++ pySlice d.pageContent MAX_CHARS_PER_DOC).length
      ≤ ("Source: " ++ d.source ++ "\nContent:\n").length + MAX_CHARS_PER_DOC
  rw [String.length_append]
  exact Nat.add_le_add_left (pySlice_length_le _ _) _

/-- Claim C10: the aggregator requests at most `k = 10` fragments from
each index store, so the pre-deduplication union holds at most
`10 × (number of loaded stores)` fragments, however large the stores
are. -/
theorem claim_C10_per_store_k_cap (companyName : String) (stores : List (List Doc)) :
    (getAllDocs companyName stores).length ≤ 10 * stores.length
    ∧ ∀ store : List Doc, (similaritySearch store 10 companyName).length ≤ 10 :=
  ⟨getAllDocs_length_le companyName stores,
   fun _ => (List.length_take _ _).le.trans (Nat.min_le_left _ _)⟩

/-! ## Claims about the parallel runners -/

theorem foldl_runScrapingInParallel {τ : Type} (f : τ → Except Unit (List Doc)) :
    ∀ (order : List τ) (acc : List Doc),
      order.foldl (fun allDocuments task =>
        match f task with
        | .ok result => if result ≠ [] then allDocuments ++ result else allDocuments
        | .error _ => allDocuments) acc
      = acc ++ (order.filterMap (fun t => (f t).toOption)).flatten := by
  intro order
  induction order with
  | nil => intro acc; simp
  | cons t ts ih =>
    intro acc
    simp only [List.foldl_cons, List.filterMap_cons]
    cases hft : f t with
    | error e =>
      simp only [Except.toOption]
      simpa [Except.toOption] using ih acc
    | ok r =>
      simp only [Except.toOption]
      by_cases hr : r ≠ []
      · rw [if_pos hr, ih (acc ++ r)]
        simp [Except.toOption]
      · push_neg at hr
        subst hr
        rw [if_neg (by simp)]
        simpa [Except.toOption] using ih acc

/-- The thread-pool runner collects exactly the concatenated results of
the tasks whose worker did not raise, in completion order — a raising
task is skipped and the batch continues. -/
theorem runScrapingInParallel_eq {τ : Type} (f : τ → Except Unit (List Doc))
    (completionOrder : List τ) :
    runScrapingInParallel f completionOrder
      = (completionOrder.filterMap (fun t => (f t).toOption)).flatten := by
  unfold runScrapingInParallel
  rw [foldl_runScrapingInParallel]
  simp

/-- If any task's worker raises, `asyncio.gather` without
`return_exceptions` propagates the exception. -/
theorem asyncioGather_isError {τ : Type} (f : τ → Except Unit (List Doc)) :
    ∀ (tasks : List τ), (∃ t ∈ tasks, (f t).isOk = false) →
      ∃ e, asyncioGather f tasks = .error e := by
  intro tasks
  induction tasks with
  | nil => rintro ⟨t, ht, _⟩; simp at ht
  | cons t ts ih =>
    rintro ⟨u, hu, hfu⟩
    rcases List.mem_cons.mp hu with rfl | hu
    · cases hft : f u with
      | error e => exact ⟨e, by simp [asyncioGather, hft]⟩
      | ok r => rw [hft] at hfu; simp [Except.isOk, Except.toBool] at hfu
    · cases hft : f t with
      | error e => exact ⟨e, by simp [asyncioGather, hft]⟩
      | ok r =>
        rcases ih ⟨u, hu, hfu⟩ with ⟨e, he⟩
        exact ⟨e, by simp [asyncioGather, hft, he]⟩

/-- Claim C1, counterexample: with two tasks whose worker raises on the
first and succeeds on the second, the thread-pool runner returns the
second task's documents, but the cooperative runner propagates the
exception and returns *no* results at all — the two realizations do
not share the claimed contract. -/
theorem claim_C1_counterexample :
    runScrapingInParallel failingWorker [0, 1] = [docAcme]
    ∧ runAsyncScrapingInParallel failingWorker [0, 1] = .error ()
    ∧ runAsyncScrapingInParallel failingWorker [0, 1] ≠ .ok [docAcme] := by
  refine ⟨rfl, rfl, by decide⟩

/-- Claim C1, amended: only the thread-pool realization
(`run_scraping_in_parallel`) implements the partial-failure contract —
it returns exactly the concatenated results of the non-raising tasks,
so one item's failure never aborts the batch; the cooperative
realization (`run_async_scraping_in_parallel`) uses `asyncio.gather`
without `return_exceptions=True`, so any item's exception propagates
and the whole batch's results are lost. -/
theorem claim_C1_amended_runner_contracts {τ : Type} (f : τ → Except Unit (List Doc))
    (completionOrder tasks : List τ) (h : ∃ t ∈ tasks, (f t).isOk = false) :
    runScrapingInParallel f completionOrder
      = (completionOrder.filterMap (fun t => (f t).toOption)).flatten
    ∧ ∃ e, runAsyncScrapingInParallel f tasks = .error e := by
  refine ⟨runScrapingInParallel_eq f completionOrder, ?_⟩
  rcases asyncioGather_isError f tasks h with ⟨e, he⟩
  exact ⟨e, by simp [runAsyncScrapingInParallel, he]⟩

/-- Witness for the amended C1 at the two-task batch whose first worker
raises. -/
theorem claim_C1_amended_witness :
    (∃ t ∈ [0, 1], (failingWorker t).isOk = false)
    ∧ runScrapingInParallel failingWorker [0, 1]
        = (([0, 1].filterMap (fun t => (failingWorker t).toOption))).flatten
    ∧ ∃ e, runAsyncScrapingInParallel failingWorker [0, 1] = .error e := by
  have h := claim_C1_amended_runner_contracts failingWorker [0, 1] [0, 1]
    ⟨0, by decide, by decide⟩
  exact ⟨⟨0, by decide, by decide⟩, h.1, h.2⟩

/-! ## Claims about the store boundary -/

/-- Claim C5, counterexample: a whitespace-only LinkedIn post is harvested
by `scrape_page` with no content check, and `step_2_scrape_linkedin`
adds it to the store: the store's fragment count grows from 0 to 1 and
the stored fragment's content trims to the empty string — nothing drops
empty fragments at the store boundary. -/
theorem claim_C5_counterexample :
    whitespacePostBatch.map Doc.pageContent = [" "]
    ∧ (" " : String).data.all Char.isWhitespace = true
    ∧ (step2AddDocuments [] whitespacePostBatch).length = 1
    ∧ (⟨" ", "Acme", "https://www.linkedin.com/company/acme/posts/", "company_post"⟩ : Doc)
        ∈ step2AddDocuments [] whitespacePostBatch := by
  refine ⟨rfl, by decide, rfl, by decide⟩

/-- Claim C5, amended: the only emptiness check on the step-2 path is the
whole-batch guard `if all_documents:`; a non-empty batch is appended to
the store in full, every fragment included, whatever its content — a
whitespace-only fragment inside a non-empty batch is stored, not
dropped. -/
theorem claim_C5_amended_store_appends_all (store docs : List Doc) (h : docs ≠ []) :
    step2AddDocuments store docs = store ++ docs
    ∧ (step2AddDocuments store docs).length = store.length + docs.length := by
  unfold step2AddDocuments addDocuments
  rw [if_pos h]
  exact ⟨rfl, List.length_append _ _⟩

/-- Witness for the amended C5 at the whitespace-only post batch. -/
theorem claim_C5_amended_witness :
    whitespacePostBatch ≠ []
    ∧ step2AddDocuments [] whitespacePostBatch = [] ++ whitespacePostBatch
    ∧ (step2AddDocuments [] whitespacePostBatch).length
        = ([] : List Doc).length + whitespacePostBatch.length :=
  ⟨by decide, (claim_C5_amended_store_appends_all [] whitespacePostBatch (by decide)).1,
   (claim_C5_amended_store_appends_all [] whitespacePostBatch (by decide)).2⟩

/-! ## Claims about the driver pool -/

theorem countP_set_toNat (p : α → Bool) :
    ∀ (l : List α) (i : Nat) (a : α) (h : i < l.length),
      (l.set i a).countP p + (p (l.get ⟨i, h⟩)).toNat
        = l.countP p + (p a).toNat := by
  intro l
  induction l with
  | nil => intro i a h; simp at h
  | cons x xs ih =>
    intro i a h
    cases i with
    | zero =>
      have hget : (x :: xs).get ⟨0, h⟩ = x := rfl
      rw [hget, List.set_cons_zero]
      simp only [List.countP_cons]
      cases hx : p x <;> cases ha : p a <;> simp [hx, ha, Bool.toNat]
    | succ n =>
      have hn : n < xs.length := by simpa using h
      have hget : (x :: xs).get ⟨n + 1, h⟩ = xs.get ⟨n, hn⟩ := rfl
      rw [hget, List.set_cons_succ]
      simp only [List.countP_cons]
      have := ih n a hn
      omega

/-- Every enabled scheduler event preserves the sum of queued drivers
and outstanding borrows. -/
theorem applyPoolEvent_sum {s s' : PoolState} {e : PoolEvent}
    (h : applyPoolEvent s e = some s') :
    s'.avail + outstanding s' = s.avail + outstanding s := by
  cases e with
  | get i =>
    simp only [applyPoolEvent] at h
    cases hw : s.workers.get? i with
    | none => rw [hw] at h; exact absurd h (by simp)
    | some ph =>
      rw [hw] at h
      cases ph <;> simp only [] at h
      case idle =>
        by_cases ha : s.avail > 0
        · rw [if_pos ha] at h
          obtain ⟨hlt, hget⟩ := List.get?_eq_some.mp hw
          have hc : (s.workers.set i WorkerPhase.holding).countP (fun w => w.borrowed) + 0
              = s.workers.countP (fun w => w.borrowed) + 1 := by
            have h2 := countP_set_toNat (fun w => w.borrowed) s.workers i WorkerPhase.holding hlt
            rw [hget] at h2
            exact h2
          cases h
          dsimp only [outstanding]
          omega
        · rw [if_neg ha] at h; exact absurd h (by simp)
      all_goals exact absurd h (by simp)
  | work i r =>
    simp only [applyPoolEvent] at h
    cases hw : s.workers.get? i with
    | none => rw [hw] at h; exact absurd h (by simp)
    | some ph =>
      rw [hw] at h
      cases ph <;> simp only [] at h
      case holding =>
        obtain ⟨hlt, hget⟩ := List.get?_eq_some.mp hw
        have hc : (s.workers.set i (WorkerPhase.finished r)).countP (fun w => w.borrowed) + 1
            = s.workers.countP (fun w => w.borrowed) + 1 := by
          have h2 := countP_set_toNat (fun w => w.borrowed) s.workers i (WorkerPhase.finished r) hlt
          rw [hget] at h2
          exact h2
        cases h
        dsimp only [outstanding]
        omega
      all_goals exact absurd h (by simp)
  | put i =>
    simp only [applyPoolEvent] at h
    cases hw : s.workers.get? i with
    | none => rw [hw] at h; exact absurd h (by simp)
    | some ph =>
      rw [hw] at h
      cases ph <;> simp only [] at h
      case finished r =>
        obtain ⟨hlt, hget⟩ := List.get?_eq_some.mp hw
        have hc : (s.workers.set i WorkerPhase.done).countP (fun w => w.borrowed) + 1
            = s.workers.countP (fun w => w.borrowed) + 0 := by
          have h2 := countP_set_toNat (fun w => w.borrowed) s.workers i WorkerPhase.done hlt
          rw [hget] at h2
          exact h2
        cases h
        dsimp only [outstanding]
        omega
      all_goals exact absurd h (by simp)

/-- The sum invariant holds along every interleaving. -/
theorem runPoolEvents_sum :
    ∀ (events : List PoolEvent) (s s' : PoolState),
      runPoolEvents s events = some s' →
      s'.avail + outstanding s' = s.avail + outstanding s := by
  intro events
  induction events with
  | nil =>
    intro s s' h
    simp only [runPoolEvents] at h
    cases h; rfl
  | cons e es ih =>
    intro s s' h
    simp only [runPoolEvents] at h
    cases ha : applyPoolEvent s e with
    | none => rw [ha] at h; exact absurd h (by simp)
    | some s₁ =>
      rw [ha] at h
      rw [ih s₁ s' h]
      exact applyPoolEvent_sum ha

theorem createDriverPool_length {creationOutcomes : List (Option Unit)}
    (h : ∀ o ∈ creationOutcomes, o.isSome = true) :
    (createDriverPool creationOutcomes).length = creationOutcomes.length := by
  unfold createDriverPool
  induction creationOutcomes with
  | nil => rfl
  | cons o os ih =>
    cases o with
    | none => exact absurd (h none (by simp)) (by simp)
    | some d =>
      have : List.filterMap id (some d :: os) = d :: List.filterMap id os := by
        simp
      rw [this, List.length_cons, List.length_cons,
        ih (fun o ho => h o (by simp [ho]))]

/-- Claim C2: over a pool created with size N whose driver creations all
succeeded, along every interleaving of a batch of pooled workers
(`get` blocks while the queue is empty; the `put` sits in a `finally`,
so it follows the work's completion on every exit path, exceptions
included): the number of concurrently outstanding borrowed drivers
never exceeds N, queued plus outstanding is always exactly N, and once
every worker is done the pool holds all N drivers again. -/
theorem claim_C2_pool_discipline (N : Nat) (creationOutcomes : List (Option Unit))
    (hlen : creationOutcomes.length = N)
    (hall : ∀ o ∈ creationOutcomes, o.isSome = true)
    (m : Nat) (events : List PoolEvent) (s' : PoolState)
    (hrun : runPoolEvents (initialPoolState creationOutcomes m) events = some s') :
    outstanding s' ≤ N
    ∧ s'.avail + outstanding s' = N
    ∧ ((∀ w ∈ s'.workers, w = WorkerPhase.done) → s'.avail = N) := by
  have hinit : (initialPoolState creationOutcomes m).avail
      + outstanding (initialPoolState creationOutcomes m) = N := by
    simp only [initialPoolState, outstanding]
    rw [createDriverPool_length hall, hlen]
    have : (List.replicate m WorkerPhase.idle).countP (fun w => w.borrowed) = 0 := by
      rw [List.countP_eq_zero]
      intro w hw
      rw [List.eq_of_mem_replicate hw]
      simp [WorkerPhase.borrowed]
    omega
  have hsum := runPoolEvents_sum events _ s' hrun
  rw [hinit] at hsum
  refine ⟨by omega, hsum, ?_⟩
  intro hdone
  have : outstanding s' = 0 := by
    simp only [outstanding]
    rw [List.countP_eq_zero]
    intro w hw
    rw [hdone w hw]
    simp [WorkerPhase.borrowed]
  omega

/-- Witness for C2: a pool of two drivers, two workers, an interleaving
in which worker 0's `scrape_page` raises — its driver is still returned
and the pool ends with both drivers queued. -/
theorem claim_C2_pool_discipline_witness :
    runPoolEvents (initialPoolState [some (), some ()] 2)
        [PoolEvent.get 0, PoolEvent.get 1, PoolEvent.work 0 (Except.error ()),
         PoolEvent.put 0, PoolEvent.work 1 (Except.ok []), PoolEvent.put 1]
      = some ⟨2, [WorkerPhase.done, WorkerPhase.done]⟩
    ∧ (outstanding ⟨2, [WorkerPhase.done, WorkerPhase.done]⟩ ≤ 2
       ∧ (2 : Nat) + outstanding ⟨2, [WorkerPhase.done, WorkerPhase.done]⟩ = 2
       ∧ ((∀ w ∈ [WorkerPhase.done, WorkerPhase.done], w = WorkerPhase.done)
           → (2 : Nat) = 2)) := by
  refine ⟨by decide, ?_⟩
  exact claim_C2_pool_discipline 2 [some (), some ()] (by decide) (by decide) 2
    [PoolEvent.get 0, PoolEvent.get 1, PoolEvent.work 0 (Except.error ()),
     PoolEvent.put 0, PoolEvent.work 1 (Except.ok []), PoolEvent.put 1]
    ⟨2, [WorkerPhase.done, WorkerPhase.done]⟩ (by decide)

/-! ## Claims about Stage-1 global deduplication -/

theorem foldl_stage1_results (c : String) (rs : List SearchResult) :
    ∀ s : Stage1State,
      rs.foldl (stage1Step c) s
        = (rs.map (fun r => (c, r))).foldl (fun s p => stage1Step p.1 s p.2) s := by
  induction rs with
  | nil => intro s; rfl
  | cons r rs ih =>
    intro s
    simp only [List.foldl_cons, List.map_cons]
    exact ih _

theorem foldl_stage1_queries
    (sb : String → String → List SearchResult) (c : String) :
    ∀ (qs : List String) (s : Stage1State),
      qs.foldl (fun s query => (sb c query).foldl (stage1Step c) s) s
        = (qs.flatMap (fun query => (sb c query).map (fun r => (c, r)))).foldl
            (fun s p => stage1Step p.1 s p.2) s := by
  intro qs
  induction qs with
  | nil => intro s; rfl
  | cons q qs ih =>
    intro s
    simp only [List.foldl_cons, List.flatMap_cons, List.foldl_append]
    rw [← foldl_stage1_results c (sb c q) s]
    exact ih _

/-- The triple-nested Stage-1 loop is the fold of its per-result step
over the run's (company, result) pairs in visit order. -/
theorem step7Stage1_eq_pairs_foldl (companies : List String)
    (generateQueries : String → List String)
    (searchBrave : String → String → List SearchResult) :
    step7Stage1 companies generateQueries searchBrave
      = (stage1Pairs companies generateQueries searchBrave).foldl
          (fun s p => stage1Step p.1 s p.2) ⟨[], []⟩ := by
  unfold step7Stage1 stage1Pairs
  generalize (⟨[], []⟩ : Stage1State) = s0
  induction companies generalizing s0 with
  | nil => rfl
  | cons c cs ih =>
    simp only [List.foldl_cons, List.flatMap_cons, List.foldl_append]
    rw [← foldl_stage1_queries searchBrave c (generateQueries c) s0]
    exact ih _

theorem discoveredUrls_append_single (processed : List (String × SearchResult))
    (c : String) (rurl : Option String) (rdoc : Option String) :
    discoveredUrls (processed ++ [(c, ⟨rurl, rdoc⟩)])
      = discoveredUrls processed
        ++ (match rurl with
            | some u => if u ≠ "" then [u] else []
            | none => []) := by
  unfold discoveredUrls
  rw [List.filterMap_append]
  congr 1
  cases rurl with
  | none => rfl
  | some u =>
    by_cases hne : u ≠ "" <;> simp [hne]

theorem stage1Inv_step {processed : List (String × SearchResult)} {s : Stage1State}
    (c : String) (r : SearchResult) (h : Stage1Inv processed s) :
    Stage1Inv (processed ++ [(c, r)]) (stage1Step c s r) := by
  obtain ⟨h1, h2, h3, h4⟩ := h
  obtain ⟨rurl, rdoc⟩ := r
  cases rurl with
  | none =>
    have hs : stage1Step c s ⟨none, rdoc⟩ = s := rfl
    rw [hs]
    refine ⟨h1, h2, ?_, ?_⟩
    · intro u
      rw [discoveredUrls_append_single, h3 u]
      simp
    · intro it hit
      obtain ⟨hne, hfind⟩ := h4 it hit
      refine ⟨hne, ?_⟩
      rw [List.find?_append, hfind]
      rfl
  | some u =>
    simp only [stage1Step]
    by_cases hcond : u ≠ "" ∧ u ∉ s.scrapedUrls
    · rw [if_pos hcond]
      obtain ⟨hne, hnotin⟩ := hcond
      refine ⟨?_, ?_, ?_, ?_⟩
      · simp only [List.map_append, List.map_cons, List.map_nil, h1, List.reverse_cons]
      · exact List.nodup_cons.mpr ⟨hnotin, h2⟩
      · intro x
        rw [discoveredUrls_append_single]
        simp only []
        rw [if_pos hne]
        simp only [List.mem_cons, List.mem_append, List.mem_singleton, h3 x]
        tauto
      · intro it hit
        rcases List.mem_append.mp hit with hold | hnew
        · obtain ⟨hne', hfind⟩ := h4 it hold
          refine ⟨hne', ?_⟩
          rw [List.find?_append, hfind]
          rfl
        · simp only [List.mem_singleton] at hnew
          subst hnew
          refine ⟨hne, ?_⟩
          rw [List.find?_append]
          have hnone : processed.find?
              (fun p => p.2.url == some (⟨u, rdoc, c⟩ : DeepWorkItem).url) = none := by
            rw [List.find?_eq_none]
            intro p hp hbeq
            have hpu : p.2.url = some u := by simpa using hbeq
            have hmem : u ∈ discoveredUrls processed := by
              unfold discoveredUrls
              exact List.mem_filterMap.mpr ⟨p, hp, by simp [hpu, hne]⟩
            exact hnotin ((h3 u).mpr hmem)
          rw [hnone]
          have hsingle : List.find? (fun p => p.2.url == some (⟨u, rdoc, c⟩ : DeepWorkItem).url)
              [(c, (⟨some u, rdoc⟩ : SearchResult))]
              = some (c, (⟨some u, rdoc⟩ : SearchResult)) :=
            List.find?_cons_of_pos _ (by simp)
          rw [hsingle]
          rfl
    · rw [if_neg hcond]
      refine ⟨h1, h2, ?_, ?_⟩
      · intro x
        rw [discoveredUrls_append_single, h3 x]
        by_cases hne : u ≠ ""
        · have hu : u ∈ s.scrapedUrls := by
            by_contra hnu
            exact hcond ⟨hne, hnu⟩
          simp only []
          rw [if_pos hne]
          simp only [List.mem_append, List.mem_singleton]
          constructor
          · intro hx
            exact Or.inl hx
          · rintro (hx | hxu)
            · exact hx
            · rw [hxu]
              exact (h3 u).mp hu
        · simp only []
          rw [if_neg hne, List.append_nil]
      · intro it hit
        obtain ⟨hne', hfind⟩ := h4 it hit
        refine ⟨hne', ?_⟩
        rw [List.find?_append, hfind]
        rfl

theorem stage1Inv_foldl :
    ∀ (rest processed : List (String × SearchResult)) (s : Stage1State),
      Stage1Inv processed s →
      Stage1Inv (processed ++ rest)
        (rest.foldl (fun s p => stage1Step p.1 s p.2) s) := by
  intro rest
  induction rest with
  | nil => intro processed s h; simpa using h
  | cons p ps ih =>
    intro processed s h
    have hstep := stage1Inv_step p.1 p.2 h
    have hrec := ih (processed ++ [(p.1, p.2)]) _ hstep
    rw [List.append_assoc] at hrec
    simpa using hrec

theorem stage1Inv_init : Stage1Inv [] ⟨[], []⟩ := by
  refine ⟨rfl, List.nodup_nil, ?_, ?_⟩
  · intro u; simp [discoveredUrls]
  · intro it hit; simp at hit

/-- The Stage-1 state of `step_7_scrape_deep_web` satisfies the
invariant relative to all (company, result) pairs of the run. -/
theorem step7Stage1_inv (companies : List String)
    (generateQueries : String → List String)
    (searchBrave : String → String → List SearchResult) :
    Stage1Inv (stage1Pairs companies generateQueries searchBrave)
      (step7Stage1 companies generateQueries searchBrave) := by
  rw [step7Stage1_eq_pairs_foldl]
  have := stage1Inv_foldl (stage1Pairs companies generateQueries searchBrave) [] ⟨[], []⟩
    stage1Inv_init
  simpa using this

/-- Claim C4: Stage-1 URL deduplication is global across all entities of
the run: the scheduled work-item URLs are pairwise distinct; a URL is
scheduled iff some Stage-1 query of some entity surfaced it; the number
of work items equals the number of *distinct* discovered URLs (not of
(entity, URL) pairs); and each work item is claimed, with its document
type, by the first (company, result) pair of the run that surfaced its
URL. -/
theorem claim_C4_global_stage1_dedup (companies : List String)
    (generateQueries : String → List String)
    (searchBrave : String → String → List SearchResult) :
    ((step7Stage1 companies generateQueries searchBrave).allUrlsToScrape.map
        DeepWorkItem.url).Nodup
    ∧ (∀ u, u ∈ (step7Stage1 companies generateQueries searchBrave).allUrlsToScrape.map
          DeepWorkItem.url
        ↔ u ∈ discoveredUrls (stage1Pairs companies generateQueries searchBrave))
    ∧ (step7Stage1 companies generateQueries searchBrave).allUrlsToScrape.length
        = (discoveredUrls (stage1Pairs companies generateQueries searchBrave)).dedup.length
    ∧ ∀ it ∈ (step7Stage1 companies generateQueries searchBrave).allUrlsToScrape,
        (stage1Pairs companies generateQueries searchBrave).find?
            (fun p => p.2.url == some it.url)
          = some (it.companyName, ⟨some it.url, it.docType⟩) := by
  obtain ⟨h1, h2, h3, h4⟩ := step7Stage1_inv companies generateQueries searchBrave
  refine ⟨?_, ?_, ?_, ?_⟩
  · rw [h1]
    exact List.nodup_reverse.mpr h2
  · intro u
    rw [h1, List.mem_reverse]
    exact h3 u
  · have hlen : (step7Stage1 companies generateQueries searchBrave).allUrlsToScrape.length
        = (step7Stage1 companies generateQueries searchBrave).scrapedUrls.length := by
      rw [← List.length_map _ DeepWorkItem.url, h1, List.length_reverse]
    rw [hlen]
    have hset : (step7Stage1 companies generateQueries searchBrave).scrapedUrls.toFinset
        = (discoveredUrls (stage1Pairs companies generateQueries searchBrave)).toFinset := by
      ext x
      simp only [List.mem_toFinset]
      exact h3 x
    calc (step7Stage1 companies generateQueries searchBrave).scrapedUrls.length
        = (step7Stage1 companies generateQueries searchBrave).scrapedUrls.toFinset.card :=
          (List.toFinset_card_of_nodup h2).symm
      _ = (discoveredUrls (stage1Pairs companies generateQueries searchBrave)).toFinset.card := by
          rw [hset]
      _ = (discoveredUrls (stage1Pairs companies generateQueries searchBrave)).dedup.length :=
          List.card_toFinset _
  · intro it hit
    exact (h4 it hit).2

/-- Witness for C4 at the spec's overlap scenario: `"Acme Pay"`
surfaces `{u1, u2}`, `"Nova Bank"` surfaces `{u2, u3}`; three work
items are scheduled, not four, and `u2` is claimed by `"Acme Pay"`,
whose query surfaced it first. -/
theorem claim_C4_global_stage1_dedup_witness :
    (step7Stage1 demoCompanies demoGen demoSearch).allUrlsToScrape.length
      = (discoveredUrls (stage1Pairs demoCompanies demoGen demoSearch)).dedup.length
    ∧ (step7Stage1 demoCompanies demoGen demoSearch).allUrlsToScrape.map DeepWorkItem.url
      = ["u1", "u2", "u3"]
    ∧ (⟨"u2", some "partnership_info", "Acme Pay"⟩ : DeepWorkItem)
        ∈ (step7Stage1 demoCompanies demoGen demoSearch).allUrlsToScrape
    ∧ (stage1Pairs demoCompanies demoGen demoSearch).find?
        (fun p => p.2.url == some (⟨"u2", some "partnership_info", "Acme Pay"⟩ : DeepWorkItem).url)
      = some ("Acme Pay", ⟨some "u2", some "partnership_info"⟩) := by
  have h := claim_C4_global_stage1_dedup demoCompanies demoGen demoSearch
  refine ⟨h.2.2.1, by decide, by decide, ?_⟩
  exact h.2.2.2 ⟨"u2", some "partnership_info", "Acme Pay"⟩ (by decide)

/-! ## Claims about Brave-call spacing -/

theorem stage1CallStarts_ge (ts : List CallTiming) :
    ∀ t0 : ℚ, (∀ c ∈ ts, c.Valid) →
      ∀ x ∈ stage1CallStarts t0 ts, t0 + BRAVE_API_RATE_LIMIT ≤ x := by
  induction ts with
  | nil => intro t0 _ x hx; simp [stage1CallStarts] at hx
  | cons c cs ih =>
    intro t0 h x hx
    obtain ⟨hpre, hover, hdur⟩ := h c (by simp)
    simp only [stage1CallStarts, List.mem_cons] at hx
    rcases hx with rfl | hx
    · linarith
    · have := ih (t0 + c.preWork + BRAVE_API_RATE_LIMIT + c.sleepOver + c.callDur)
        (fun d hd => h d (by simp [hd])) x hx
      have hband : (0 : ℚ) < BRAVE_API_RATE_LIMIT := by norm_num [BRAVE_API_RATE_LIMIT]
      linarith

/-- Claim C7, amended: within every *sequential* calling sequence — the
Stage-1 loop of `step_7_scrape_deep_web`, and likewise each single
worker thread's successive calls through `_search_brave` — consecutive
Brave-call start times are separated by at least
`BRAVE_API_RATE_LIMIT`, because a sleep of at least the full interval
precedes every call.  Across concurrently running workers (the news
step runs its per-company harvests, each containing the sleep-then-call
sequence, on a pool of two threads) no such spacing is guaranteed. -/
theorem claim_C7_amended_sequential_spacing (t0 : ℚ) (ts : List CallTiming)
    (h : ∀ c ∈ ts, c.Valid) :
    (stage1CallStarts t0 ts).Chain' (fun a b => a + BRAVE_API_RATE_LIMIT ≤ b) := by
  induction ts generalizing t0 with
  | nil => simp [stage1CallStarts]
  | cons c cs ih =>
    obtain ⟨hpre, hover, hdur⟩ := h c (by simp)
    simp only [stage1CallStarts]
    rw [List.chain'_cons']
    constructor
    · intro b hb
      have hbmem := List.mem_of_mem_head? hb
      have := stage1CallStarts_ge cs
        (t0 + c.preWork + BRAVE_API_RATE_LIMIT + c.sleepOver + c.callDur)
        (fun d hd => h d (by simp [hd])) b hbmem
      linarith
    · exact ih _ (fun d hd => h d (by simp [hd]))

/-- Witness for the amended C7: two sequential Stage-1 iterations with
concrete loop work, sleep overshoot and call durations. -/
theorem claim_C7_amended_witness :
    (∀ c ∈ [(⟨0, 0, 2⟩ : CallTiming), ⟨1, 1/2, 0⟩], c.Valid)
    ∧ (stage1CallStarts 0 [(⟨0, 0, 2⟩ : CallTiming), ⟨1, 1/2, 0⟩]).Chain'
        (fun a b => a + BRAVE_API_RATE_LIMIT ≤ b) :=
  ⟨by norm_num [CallTiming.Valid],
   claim_C7_amended_sequential_spacing 0 [⟨0, 0, 2⟩, ⟨1, 1/2, 0⟩]
     (by norm_num [CallTiming.Valid])⟩

/-- Claim C7, counterexample: a realizable execution of the news step in
which the two pool workers sleep concurrently: both honour their own
`time.sleep(BRAVE_API_RATE_LIMIT)`, yet their two Brave-call start
times — consecutive calls to the external service in this run — are
only 1/100 of a second apart, far less than the configured interval. -/
theorem claim_C7_counterexample :
    newsOverlapExec.Valid
    ∧ newsOverlapExec.callStart1 - newsOverlapExec.callStart0 = 1 / 100
    ∧ (0 : ℚ) < 1 / 100
    ∧ (1 : ℚ) / 100 < BRAVE_API_RATE_LIMIT := by
  refine ⟨⟨by norm_num [newsOverlapExec], by norm_num [newsOverlapExec],
    by norm_num [newsOverlapExec], by norm_num [newsOverlapExec]⟩, ?_, by norm_num, ?_⟩
  · show (1 : ℚ) / 100 + BRAVE_API_RATE_LIMIT + 0 - (0 + BRAVE_API_RATE_LIMIT + 0) = 1 / 100
    ring
  · show (1 : ℚ) / 100 < 1
    norm_num

end UAEscraper
